import Mathlib

/-!
Verification development for the gitstatus repository status engine
(file src/git.cc). The C++ code is shallowly embedded: stateful code
becomes explicit state passing, machine integers become Nat, byte
strings become lists of Nat, and the concurrent scan outcomes become
oracle parameters that the theorems quantify over.
-/

namespace Gitstatus

/-! ## Basic data model (git.h types as used by git.cc) -/

/-- Tristate returned for the unstaged and untracked categories. -/
inductive Tribool where
  | kFalse
  | kTrue
  | kUnknown
deriving DecidableEq, Repr

/-- Return value of Repo::GetIndexStats. -/
structure IndexStats where
  has_staged : Bool
  has_unstaged : Tribool
  has_untracked : Tribool
deriving DecidableEq, Repr

/-- The three OptionalFile slots of a Repo: staged, unstaged, untracked.
An OptionalFile is a single-writer-wins cell; empty is modelled as none. -/
structure Slots where
  staged : Option String
  unstaged : Option String
  untracked : Option String
deriving DecidableEq, Repr

/-- OptionalFile::TrySet as observed through UpdateFile: only the first
write succeeds; a filled slot is left unchanged. -/
def trySet (slot : Option String) (path : String) : Option String :=
  match slot with
  | some q => some q
  | none => some path

/-- Effect of a scan on one slot: a scan publishes its discovery (if any)
only into an empty slot, via the UpdateFile protocol. -/
def fillFrom (slot found : Option String) : Option String :=
  match slot with
  | some q => some q
  | none => found

/-! ## libgit2 status flags (bitmask modelled as a record of booleans) -/

/-- Status flags returned by git_status_file for a single path. -/
structure StatusFlags where
  index_new : Bool := false
  index_modified : Bool := false
  index_deleted : Bool := false
  index_renamed : Bool := false
  index_typechange : Bool := false
  wt_new : Bool := false
  wt_modified : Bool := false
  wt_deleted : Bool := false
  wt_typechange : Bool := false
  wt_renamed : Bool := false
  conflicted : Bool := false
deriving DecidableEq, Repr

/-- Mask used by the first Snatch call in Repo::UpdateKnown:
GIT_STATUS_INDEX_NEW, INDEX_MODIFIED, INDEX_DELETED, INDEX_RENAMED and
INDEX_TYPECHANGE. -/
def stagedFlagsMask (f : StatusFlags) : Bool :=
  f.index_new || f.index_modified || f.index_deleted || f.index_renamed ||
    f.index_typechange

/-- Mask used by the second Snatch call in Repo::UpdateKnown:
GIT_STATUS_WT_MODIFIED, WT_DELETED, WT_TYPECHANGE, WT_RENAMED and
CONFLICTED. -/
def unstagedFlagsMask (f : StatusFlags) : Bool :=
  f.wt_modified || f.wt_deleted || f.wt_typechange || f.wt_renamed ||
    f.conflicted

/-- Mask used by the third Snatch call in Repo::UpdateKnown:
GIT_STATUS_WT_NEW. -/
def untrackedFlagsMask (f : StatusFlags) : Bool :=
  f.wt_new

/-! ## Repo::UpdateKnown (the fast-path recheck) -/

/-- The local struct File of Repo::UpdateKnown: flags plus path. -/
structure KnownFile where
  flags : StatusFlags
  path : String
deriving DecidableEq, Repr

/-- The Fetch lambda of Repo::UpdateKnown: clear the slot, and when it
held a path, query single-file status for it; a failing git_status_file
leaves the flags at zero.  The backend call is the oracle statusOf,
where none models a failing call. -/
def fetch (statusOf : String → Option StatusFlags) (slot : Option String) :
    KnownFile :=
  match slot with
  | none => ⟨{}, ""⟩
  | some p => ⟨(statusOf p).getD {}, p⟩

/-- The Snatch lambda of Repo::UpdateKnown: the first fetched file whose
flags intersect the mask is moved into the slot and its flags zeroed so
later Snatch calls skip it. Returns the slot value and updated files. -/
def snatch (mask : StatusFlags → Bool) :
    List KnownFile → Option String × List KnownFile
  | [] => (none, [])
  | f :: rest =>
    if mask f.flags then (some f.path, ⟨{}, f.path⟩ :: rest)
    else
      let r := snatch mask rest
      (r.1, f :: r.2)

/-- Repo::UpdateKnown: fetch the three slots (clearing them), then
redistribute the three single-file statuses over the slots in the order
staged, unstaged, untracked. -/
def updateKnown (statusOf : String → Option StatusFlags) (prev : Slots) :
    Slots :=
  let files := [fetch statusOf prev.staged, fetch statusOf prev.unstaged,
                fetch statusOf prev.untracked]
  let s := snatch stagedFlagsMask files
  let u := snatch unstagedFlagsMask s.2
  let t := snatch untrackedFlagsMask u.2
  ⟨s.1, u.1, t.1⟩

/-! ## Repo::GetIndexStats -/

/-- The scan_dirty flag: index_size less than or equal to the dirty-scan
threshold supplied by the caller. -/
def scanDirty (indexSize dirtyMax : Nat) : Bool :=
  decide (indexSize ≤ dirtyMax)

/-- The Done lambda of Repo::GetIndexStats. -/
def doneCheck (s : Slots) (head : Option Nat) (sd : Bool) : Bool :=
  (head.isNone || s.staged.isSome) &&
    (!sd || (s.unstaged.isSome && s.untracked.isSome))

/-- The return expression of Repo::GetIndexStats (its closing braces):
an empty repo with a non-empty index must have staged changes, the
tristates report unknown only when the dirty scan was skipped. -/
def mkIndexStats (s : Slots) (head : Option Nat) (indexSize : Nat)
    (sd : Bool) : IndexStats :=
  { has_staged := s.staged.isSome || (head.isNone && (indexSize != 0)),
    has_unstaged :=
      if s.unstaged.isSome then .kTrue
      else if sd then .kFalse else .kUnknown,
    has_untracked :=
      if s.untracked.isSome then .kTrue
      else if sd then .kFalse else .kUnknown }

/-- Observable outcome of one status query: the returned stats together
with how many staged-scan and dirty-scan tasks were scheduled on the
thread pool. -/
structure QueryResult where
  stats : IndexStats
  stagedTasks : Nat
  dirtyTasks : Nat
deriving DecidableEq, Repr

/-- Core of Repo::GetIndexStats after UpdateKnown has run: evaluate the
Done condition; when not done, launch StartDirtyScan (when scan_dirty)
and StartStagedScan (when head is present).  Each launched scan
schedules one task per shard, that is splits.size() minus one, unless
its early-return guard fires.  The filenames the scans would publish are
the oracle found; publication respects the single-writer slots. -/
def queryCore (s1 : Slots) (head : Option Nat)
    (indexSize dirtyMax numSplits : Nat) (found : Slots) : QueryResult :=
  let sd := scanDirty indexSize dirtyMax
  if doneCheck s1 head sd then
    ⟨mkIndexStats s1 head indexSize sd, 0, 0⟩
  else
    let dTasks := if sd && !(s1.unstaged.isSome && s1.untracked.isSome)
      then numSplits - 1 else 0
    let u2 := if sd then fillFrom s1.unstaged found.unstaged
      else s1.unstaged
    let t2 := if sd then fillFrom s1.untracked found.untracked
      else s1.untracked
    let sTasks := if head.isSome && s1.staged.isNone
      then numSplits - 1 else 0
    let s2 := if head.isSome then fillFrom s1.staged found.staged
      else s1.staged
    ⟨mkIndexStats ⟨s2, u2, t2⟩ head indexSize sd, sTasks, dTasks⟩

/-- Repo::GetIndexStats; head is the HEAD object id or none, the slots
hold the filenames cached by the previous query. -/
def getIndexStats (statusOf : String → Option StatusFlags) (prev : Slots)
    (head : Option Nat) (indexSize dirtyMax numSplits : Nat)
    (found : Slots) : QueryResult :=
  queryCore (updateKnown statusOf prev) head indexSize dirtyMax numSplits
    found

/-! ## The dirty-scan notification callback (Repo::StartDirtyScan) -/

/-- git_delta_t values as relevant to the callback: only
GIT_DELTA_UNTRACKED is distinguished. -/
inductive DeltaStatus where
  | unmodified
  | added
  | deleted
  | modified
  | renamed
  | copied
  | ignored
  | untracked
  | typechange
  | unreadable
  | conflicted
deriving DecidableEq, Repr

/-- Value returned from the notify callback: 1 skips the current delta,
GIT_EUSER aborts the whole diff. -/
inductive NotifyResult where
  | skipDelta
  | abortAll
deriving DecidableEq, Repr

/-- Outcome of one dirty callback invocation: the two slot values after
it and its return code. -/
structure DirtyCbOut where
  unstaged : Option String
  untracked : Option String
  ret : NotifyResult
deriving DecidableEq, Repr

/-- The notify_cb lambda of Repo::StartDirtyScan, sequentially: abort
when the error flag is latched; an untracked delta publishes into the
untracked slot and keeps scanning only while the unstaged slot is empty;
any other delta publishes into the unstaged slot and keeps scanning only
while the untracked slot is empty. -/
def onDirty (errorLatched : Bool) (status : DeltaStatus) (path : String)
    (unstaged untracked : Option String) : DirtyCbOut :=
  if errorLatched then ⟨unstaged, untracked, .abortAll⟩
  else if status = .untracked then
    ⟨unstaged, trySet untracked path,
      if unstaged.isNone then .skipDelta else .abortAll⟩
  else
    ⟨trySet unstaged path, untracked,
      if untracked.isNone then .skipDelta else .abortAll⟩

/-- Claim-side restatement of the dirty callback policy, written from
the specification sentences of section 4.7 to be compared with onDirty:
latched error aborts; an UNTRACKED delta is published into the untracked
slot and returns skip-this-diff when the unstaged slot is still empty,
abort-all otherwise; every other status is published into the unstaged
slot and returns skip-this-diff when the untracked slot is still empty,
abort-all otherwise. -/
def onDirtySpec (errorLatched : Bool) (status : DeltaStatus)
    (path : String) (unstaged untracked : Option String) : DirtyCbOut :=
  if errorLatched then ⟨unstaged, untracked, .abortAll⟩
  else if status = .untracked then
    ⟨unstaged, trySet untracked path,
      if unstaged = none then .skipDelta else .abortAll⟩
  else
    ⟨trySet unstaged path, untracked,
      if untracked = none then .skipDelta else .abortAll⟩

/-! ## Repo::UpdateSplits (the index sharder)

Index entry paths are C byte strings, embedded as lists of byte values;
47 is the slash byte and 1 the reserved sentinel byte. -/

/-- A path: the byte string of one index entry. -/
abbrev Path := List Nat

/-- kEntriesPerShard from Repo::UpdateSplits. -/
def kEntriesPerShard : Nat := 512

/-- Byte-wise strict comparison, the strcmp ordering on C strings
without interior NUL bytes (a proper initial segment sorts first). -/
def strlt : Path → Path → Bool
  | [], [] => false
  | [], _ :: _ => true
  | _ :: _, [] => false
  | a :: x, b :: y =>
    if a < b then true else if b < a then false else strlt x y

/-- strchr(path, b) as a boolean: does the path contain byte b. -/
def hasByte (b : Nat) : Path → Bool
  | [] => false
  | c :: rest => c = b || hasByte b rest

/-- Mutation of one path inside the patches scope of Repo::UpdateSplits:
every slash byte becomes the sentinel byte 1, and the position of every
replaced byte is recorded in the patch list. -/
def mutatePath : Path → Path × List Nat
  | [] => ([], [])
  | b :: rest =>
    let r := mutatePath rest
    if b = 47 then (1 :: r.1, 0 :: r.2.map (· + 1))
    else (b :: r.1, r.2.map (· + 1))

/-- The scope guard of Repo::UpdateSplits: write the slash byte back at
every recorded patch position of a path. -/
def applyPatches (p : Path) (patches : List Nat) : Path :=
  patches.foldl (fun q k => q.set k 47) p

/-- The first loop of Repo::UpdateSplits: walk the index entries in
order; a path containing the reserved sentinel byte stops the loop
early (everything after it is untouched), any other path is mutated
with its patch positions recorded.  Returns the processed entries with
their patches, the untouched suffix, and whether the loop completed. -/
def mutateAll : List Path → List (Path × List Nat) × List Path × Bool
  | [] => ([], [], true)
  | p :: rest =>
    if hasByte 1 p then ([], p :: rest, false)
    else
      let r := mutateAll rest
      (mutatePath p :: r.1, r.2.1, r.2.2)

/-- State of the index entry paths after the patches scope guard has
run: every processed path has its recorded patches applied, the
untouched suffix is kept as is. -/
def restoreState (m : List (Path × List Nat) × List Path × Bool) :
    List Path :=
  m.1.map (fun q => applyPatches q.1 q.2) ++ m.2.1

/-- Insertion step for the pointer sort: entries are (index, mutated
path) pairs, std::sort compares the mutated byte strings with strcmp.
The original index stands in for the pointer identity of the entry. -/
def insertEntry (x : Nat × Path) :
    List (Nat × Path) → List (Nat × Path)
  | [] => [x]
  | y :: ys => if strlt x.2 y.2 then x :: y :: ys else y :: insertEntry x ys

/-- The std::sort call of Repo::UpdateSplits: sort the entry pointers by
the mutated byte strings (one sorted permutation; std::sort leaves the
order of equal elements unspecified). -/
def sortEntries (l : List (Nat × Path)) : List (Nat × Path) :=
  l.foldr insertEntry []

/-- The last and max loop of Repo::UpdateSplits: positions are the zip
of the sorted entries with the index-order entries; a pointer equals the
index pointer exactly when the two original indices agree.  last starts
as the empty string literal (a pointer distinct from every entry,
represented by an out-of-range index) and max as the empty string. -/
def lastLoop : List ((Nat × Path) × (Nat × Path)) → (Nat × Path) → Path →
    List (Nat × Path)
  | [], _, _ => []
  | (e, ix) :: rest, last, mx =>
    if e.1 == ix.1 && mx == ([] : Path) then
      e :: lastLoop rest e mx
    else
      let mx1 := if strlt mx ix.2 then ix.2 else mx
      if e.1 == ix.1 && !strlt e.2 mx1 then
        e :: lastLoop rest e []
      else
        last :: lastLoop rest last mx1

/-- split.substr(0, split.find_last_of(slash)) when a slash exists,
none when the path has no slash. -/
def dirOf : Path → Option Path
  | [] => none
  | b :: rest =>
    match dirOf rest with
    | some d => some (b :: d)
    | none => if b = 47 then some [] else none

/-- shards = min(n / kEntriesPerShard + 1, pool size). -/
def numShards (n poolSize : Nat) : Nat :=
  min (n / kEntriesPerShard + 1) poolSize

/-- One iteration of the boundary loop of Repo::UpdateSplits: take the
candidate entry at position (i+1)*n/shards (read through the restored
buffers), drop its leaf component, and append it only when strictly
greater than the previous boundary.  The accumulator keeps the
boundaries in reverse order so its head is splits.back(). -/
def pushBoundary (rents : List Path) (n shards : Nat) (acc : List Path)
    (i : Nat) : List Path :=
  match dirOf (rents.getD ((i + 1) * n / shards) []) with
  | none => acc
  | some d => if strlt (acc.headD []) d then d :: acc else acc

/-- Repo::UpdateSplits.  Takes the index entry paths and the thread pool
size; returns the index entry paths as left behind by the function and
the new shard table.  The trivial table is produced for a small index or
pool, and when some path contains the reserved sentinel byte 1. -/
def updateSplits (paths : List Path) (poolSize : Nat) :
    List Path × List Path :=
  let n := paths.length
  if n ≤ kEntriesPerShard ∨ poolSize < 2 then
    (paths, [[], []])
  else
    let m := mutateAll paths
    let restored := restoreState m
    if m.2.2 = false then
      (restored, [[], []])
    else
      let mutated := m.1.map Prod.fst
      let sorted := sortEntries mutated.enum
      let ents := lastLoop (sorted.zip mutated.enum) (n, []) []
      let shards := numShards n poolSize
      let rents := ents.map (fun e => restored.getD e.1 [])
      let acc := (List.range (shards - 1)).foldl
        (pushBoundary rents n shards) [[]]
      (restored, acc.reverse ++ [[]])

/-! ## The inflight counter (Repo::RunAsync and Repo::DecInflight) -/

/-- Operations on the inflight counter: RunAsync increments it, the
scope guard of a finished task decrements it after the CHECK that it is
positive. -/
inductive InflightOp where
  | inc
  | dec
deriving DecidableEq, Repr

/-- Run a sequence of counter operations from a starting value; a
decrement of a non-positive counter fails the CHECK of
Repo::DecInflight, which aborts the process (none). -/
def runInflight : Int → List InflightOp → Option Int
  | v, [] => some v
  | v, .inc :: ops => runInflight (v + 1) ops
  | v, .dec :: ops =>
    if 0 < v then runInflight (v - 1) ops else none

/-! ## References: Head, TagHasTarget, GetTagName -/

/-- A git reference as the engine observes it: symbolic with a target
reference name, or direct with a target object id.  For a direct
reference, peelTagTarget is the target_id of the annotated tag object
its id names, when peeling the reference to a tag object succeeds and
the tag has a target id. -/
inductive RefVal where
  | symbolic (target : String)
  | direct (oid : Nat) (peelTagTarget : Option Nat)
deriving DecidableEq, Repr

/-- The reference database: a name-to-reference association honoured by
git_refdb_lookup. -/
abbrev RefDb := List (String × RefVal)

/-- git_refdb_lookup: find the reference stored under a full name. -/
def lookupRef (db : RefDb) (name : String) : Option RefVal :=
  (db.find? (fun e => e.1 == name)).map (fun e => e.2)

/-- The resolution loop of TagHasTarget: while the reference is
symbolic and fewer than ten iterations have run, look up
git_reference_name(ref), the full name of the reference itself, in the
refdb; a failing lookup aborts (none).  The looked-up name never
changes because it is the name of the current reference, not its
symbolic target. -/
def resolveLoop (db : RefDb) (name : String) (r : RefVal) :
    Nat → Option RefVal
  | 0 => some r
  | fuel + 1 =>
    match r with
    | .symbolic _ =>
      match lookupRef db name with
      | none => none
      | some r2 => resolveLoop db name r2 fuel
    | .direct oid peel => some (.direct oid peel)

/-- TagHasTarget from git.cc: look the name up, run the resolution loop
for at most ten iterations, reject a reference still symbolic, then
match on the direct target id or on the peeled tag object target id. -/
def tagHasTarget (db : RefDb) (name : String) (target : Nat) : Bool :=
  match lookupRef db name with
  | none => false
  | some r =>
    match resolveLoop db name r 10 with
    | none => false
    | some (.symbolic _) => false
    | some (.direct oid peel) =>
      if oid == target then true
      else
        match peel with
        | none => false
        | some t => t == target

/-- name + (sizeof(kTagPrefix) - 1): strip the ten leading characters
of refs/tags/ from a full tag reference name. -/
def stripTagRoot (name : String) : String :=
  String.mk (name.toList.drop 10)

/-- GetTagName from git.cc: walk the names produced by the reference
iterator over the glob refs/tags/* (a backend capability, supplied as a
list), return the short name of the first reference satisfying
TagHasTarget, the empty string when none does or when the target object
id is absent. -/
def getTagName (db : RefDb) (tagNames : List String)
    (target : Option Nat) : String :=
  match target with
  | none => ""
  | some t =>
    match tagNames.find? (fun n => tagHasTarget db n t) with
    | none => ""
    | some n => stripTagRoot n

/-- Claim-side resolution loop, written from the specification words of
section 4.9: resolving a symbolic reference follows its symbolic target
name, for at most the given number of hops. -/
def resolveLoopSpec (db : RefDb) (r : RefVal) : Nat → Option RefVal
  | 0 => some r
  | fuel + 1 =>
    match r with
    | .symbolic tgt =>
      match lookupRef db tgt with
      | none => none
      | some r2 => resolveLoopSpec db r2 fuel
    | .direct oid peel => some (.direct oid peel)

/-- Claim-side TagHasTarget following the specification words: resolve
symbolic chains up to ten hops, then match the direct target or the
peeled tag target. -/
def tagHasTargetSpec (db : RefDb) (name : String) (target : Nat) : Bool :=
  match lookupRef db name with
  | none => false
  | some r =>
    match resolveLoopSpec db r 10 with
    | none => false
    | some (.symbolic _) => false
    | some (.direct oid peel) =>
      if oid == target then true
      else
        match peel with
        | none => false
        | some t => t == target

/-- Claim-side GetTagName built on tagHasTargetSpec. -/
def getTagNameSpec (db : RefDb) (tagNames : List String)
    (target : Option Nat) : String :=
  match target with
  | none => ""
  | some t =>
    match tagNames.find? (fun n => tagHasTargetSpec db n t) with
    | none => ""
    | some n => stripTagRoot n

/-- A two-reference database: an annotated-style tag reference that is
symbolic to the main branch, and the main branch pointing directly at
object id 42. -/
def symTagDb : RefDb :=
  [("refs/tags/v1", .symbolic "refs/heads/master"),
   ("refs/heads/master", .direct 42 none)]

/-! ## Head (the function Head of git.cc) -/

/-- Outcome of git_reference_lookup for HEAD: the reference, not found,
or a hard failure. -/
inductive LookupOutcome where
  | found (r : RefVal)
  | notFound
  | failed
deriving DecidableEq, Repr

/-- Head from git.cc: a not-found HEAD lookup returns null; a HEAD that
exists but fails git_reference_resolve (the unborn-branch case) is
returned itself; otherwise the resolved direct reference is returned.
A hard lookup failure throws. -/
def Head (lk : LookupOutcome) (resolve : RefVal → Option RefVal) :
    Except Unit (Option RefVal) :=
  match lk with
  | .notFound => .ok none
  | .failed => .error ()
  | .found symbolic =>
    match resolve symbolic with
    | none => .ok (some symbolic)
    | some direct => .ok (some direct)

/-! ## Theorems: the status engine -/

/-- Helper: the tristate of a category produced by queryCore is unknown
exactly when the dirty scan was skipped and the category slot was empty
after the fast-path recheck (unstaged category). -/
theorem queryCore_unstaged_unknown (s1 : Slots) (head : Option Nat)
    (indexSize dirtyMax numSplits : Nat) (found : Slots) :
    ((queryCore s1 head indexSize dirtyMax numSplits
        found).stats.has_unstaged = Tribool.kUnknown ↔
      (dirtyMax < indexSize ∧ s1.unstaged = none)) := by
  rcases s1 with ⟨st, u, t⟩
  rcases found with ⟨fs, fu, ft⟩
  by_cases h : indexSize ≤ dirtyMax
  · have hsd : scanDirty indexSize dirtyMax = true := by
      simp [scanDirty, h]
    have hlt : ¬ dirtyMax < indexSize := by omega
    simp only [queryCore, hsd, mkIndexStats, fillFrom, if_true]
    split <;> cases u <;> cases fu <;> simp [hlt]
  · have hsd : scanDirty indexSize dirtyMax = false := by
      simp [scanDirty, h]
    have hlt : dirtyMax < indexSize := by omega
    simp only [queryCore, hsd, mkIndexStats, fillFrom,
      Bool.false_eq_true, if_false]
    split <;> cases u <;> simp [hlt]

/-- Helper: the tristate of the untracked category produced by queryCore
is unknown exactly when the dirty scan was skipped and the untracked
slot was empty after the fast-path recheck. -/
theorem queryCore_untracked_unknown (s1 : Slots) (head : Option Nat)
    (indexSize dirtyMax numSplits : Nat) (found : Slots) :
    ((queryCore s1 head indexSize dirtyMax numSplits
        found).stats.has_untracked = Tribool.kUnknown ↔
      (dirtyMax < indexSize ∧ s1.untracked = none)) := by
  rcases s1 with ⟨st, u, t⟩
  rcases found with ⟨fs, fu, ft⟩
  by_cases h : indexSize ≤ dirtyMax
  · have hsd : scanDirty indexSize dirtyMax = true := by
      simp [scanDirty, h]
    have hlt : ¬ dirtyMax < indexSize := by omega
    simp only [queryCore, hsd, mkIndexStats, fillFrom, if_true]
    split <;> cases t <;> cases ft <;> simp [hlt]
  · have hsd : scanDirty indexSize dirtyMax = false := by
      simp [scanDirty, h]
    have hlt : dirtyMax < indexSize := by omega
    simp only [queryCore, hsd, mkIndexStats, fillFrom,
      Bool.false_eq_true, if_false]
    split <;> cases t <;> simp [hlt]

/-- C1: for every call to get_index_stats where head is absent and the
reloaded index contains at least one entry, the returned IndexStats has
has_staged = true, whatever the cached slots, the single-file statuses
and the scan discoveries are. -/
theorem c1_empty_head_nonempty_index_staged
    (statusOf : String → Option StatusFlags) (prev : Slots)
    (indexSize dirtyMax numSplits : Nat) (found : Slots)
    (h : 0 < indexSize) :
    (getIndexStats statusOf prev none indexSize dirtyMax numSplits
        found).stats.has_staged = true := by
  have hne : (indexSize != 0) = true := by
    simp [bne_iff_ne]
    omega
  simp only [getIndexStats, queryCore, mkIndexStats, hne]
  split <;> simp

/-- Witness for C1 at a concrete input. -/
theorem c1_witness :
    0 < 1 ∧ (getIndexStats (fun _ => none) ⟨none, none, none⟩ none 1 0 2
        ⟨none, none, none⟩).stats.has_staged = true :=
  ⟨by decide,
    c1_empty_head_nonempty_index_staged (fun _ => none) ⟨none, none, none⟩
      1 0 2 ⟨none, none, none⟩ (by decide)⟩

/-- C2 counterexample: a query whose index (2 entries) exceeds the
dirty-scan threshold (1), so the dirty scan is skipped, but whose
fast-path recheck confirms the previously cached unstaged file a.c is
still modified in the working tree; has_unstaged comes back definite
(kTrue), not unknown, refuting the claimed biconditional. -/
theorem c2_counterexample :
    ¬ (((getIndexStats (fun _ => some { wt_modified := true })
          ⟨none, some "a.c", none⟩ (some 0) 2 1 2
          ⟨none, none, none⟩).stats.has_unstaged = Tribool.kUnknown) ↔
        1 < 2) := by
  decide

/-- C2 amended: has_staged is always definite; has_unstaged and
has_untracked are unknown exactly when the index was larger than the
dirty-scan threshold AND the fast-path recheck left the corresponding
slot empty; in particular they can be definite even when the dirty scan
was skipped. -/
theorem c2_unknown_iff (statusOf : String → Option StatusFlags)
    (prev : Slots) (head : Option Nat)
    (indexSize dirtyMax numSplits : Nat) (found : Slots) :
    ((getIndexStats statusOf prev head indexSize dirtyMax numSplits
        found).stats.has_staged = true ∨
      (getIndexStats statusOf prev head indexSize dirtyMax numSplits
        found).stats.has_staged = false) ∧
    ((getIndexStats statusOf prev head indexSize dirtyMax numSplits
        found).stats.has_unstaged = Tribool.kUnknown ↔
      (dirtyMax < indexSize ∧
        (updateKnown statusOf prev).unstaged = none)) ∧
    ((getIndexStats statusOf prev head indexSize dirtyMax numSplits
        found).stats.has_untracked = Tribool.kUnknown ↔
      (dirtyMax < indexSize ∧
        (updateKnown statusOf prev).untracked = none)) := by
  refine ⟨?_, ?_, ?_⟩
  · exact Bool.eq_false_or_eq_true _
  · exact queryCore_unstaged_unknown (updateKnown statusOf prev) head
      indexSize dirtyMax numSplits found
  · exact queryCore_untracked_unknown (updateKnown statusOf prev) head
      indexSize dirtyMax numSplits found

/-- C5: the dirty-scan callback agrees with the specification policy on
every delta: latched error aborts all; an untracked delta publishes
into the untracked slot and skips the delta exactly when the unstaged
slot is still empty; every other delta publishes into the unstaged slot
and skips the delta exactly when the untracked slot is still empty. -/
theorem c5_dirty_callback_matches_spec (errorLatched : Bool)
    (status : DeltaStatus) (path : String)
    (unstaged untracked : Option String) :
    onDirty errorLatched status path unstaged untracked =
      onDirtySpec errorLatched status path unstaged untracked := by
  unfold onDirty onDirtySpec
  cases unstaged <;> cases untracked <;> simp

/-- Helper: when the staged slot is already filled as the scans would be
launched, queryCore schedules no staged-scan task and reports
has_staged = true. -/
theorem queryCore_staged_filled (s1 : Slots) (q : String)
    (head : Option Nat) (indexSize dirtyMax numSplits : Nat)
    (found : Slots) (h : s1.staged = some q) :
    (queryCore s1 head indexSize dirtyMax numSplits
        found).stagedTasks = 0 ∧
    (queryCore s1 head indexSize dirtyMax numSplits
        found).stats.has_staged = true := by
  rcases s1 with ⟨st, u, t⟩
  cases h
  simp only [queryCore, mkIndexStats, fillFrom]
  split <;> cases head <;> simp

/-- C8: when the staged slot is non-empty at launch time, and in
particular when the fast-path recheck re-confirmed the previously
reported staged path p (its single-file status still carries an INDEX
flag), the query schedules zero staged-scan tasks and still returns
has_staged = true. -/
theorem c8_fast_path_skips_staged_scan
    (statusOf : String → Option StatusFlags) (prev : Slots) (p : String)
    (f : StatusFlags) (head : Option Nat)
    (indexSize dirtyMax numSplits : Nat) (found : Slots)
    (h1 : prev.staged = some p) (h2 : statusOf p = some f)
    (h3 : stagedFlagsMask f = true) :
    (updateKnown statusOf prev).staged = some p ∧
    (getIndexStats statusOf prev head indexSize dirtyMax numSplits
        found).stagedTasks = 0 ∧
    (getIndexStats statusOf prev head indexSize dirtyMax numSplits
        found).stats.has_staged = true := by
  have hk : (updateKnown statusOf prev).staged = some p := by
    simp [updateKnown, fetch, h1, h2, snatch, h3]
  refine ⟨hk, ?_, ?_⟩
  · exact (queryCore_staged_filled _ p head indexSize dirtyMax numSplits
      found hk).1
  · exact (queryCore_staged_filled _ p head indexSize dirtyMax numSplits
      found hk).2

/-- Witness for C8 at a concrete input: the previous query cached the
staged path x/y.c, the single-file status still reports it
index-modified, and the query runs with a valid HEAD and a large
index. -/
theorem c8_witness :
    (updateKnown (fun _ => some { index_modified := true })
        ⟨some "x/y.c", none, none⟩).staged = some "x/y.c" ∧
    (getIndexStats (fun _ => some { index_modified := true })
        ⟨some "x/y.c", none, none⟩ (some 7) 100000 50000 5
        ⟨none, none, none⟩).stagedTasks = 0 ∧
    (getIndexStats (fun _ => some { index_modified := true })
        ⟨some "x/y.c", none, none⟩ (some 7) 100000 50000 5
        ⟨none, none, none⟩).stats.has_staged = true :=
  c8_fast_path_skips_staged_scan (fun _ => some { index_modified := true })
    ⟨some "x/y.c", none, none⟩ "x/y.c" { index_modified := true } (some 7)
    100000 50000 5 ⟨none, none, none⟩ rfl rfl (by decide)

/-! ## Theorems: the index sharder -/

/-- Helper: patches shifted by one position act below a cons cell. -/
theorem applyPatches_cons (x : Nat) (l : Path) (ps : List Nat) :
    applyPatches (x :: l) (ps.map (· + 1)) = x :: applyPatches l ps := by
  induction ps generalizing l with
  | nil => rfl
  | cons k ps ih =>
    simp only [applyPatches, List.map_cons, List.foldl_cons, List.set]
    exact ih (l.set k 47)

/-- Helper: applying the recorded patches of a mutated path restores the
original path byte for byte. -/
theorem applyPatches_mutatePath (p : Path) :
    applyPatches (mutatePath p).1 (mutatePath p).2 = p := by
  induction p with
  | nil => rfl
  | cons b rest ih =>
    by_cases hb : b = 47
    · subst hb
      have hmut : mutatePath (47 :: rest) =
          (1 :: (mutatePath rest).1,
            0 :: (mutatePath rest).2.map (· + 1)) := by
        simp [mutatePath]
      rw [hmut]
      have hstep : applyPatches ((1 : Nat) :: (mutatePath rest).1)
          (0 :: (mutatePath rest).2.map (· + 1)) =
          applyPatches ((47 : Nat) :: (mutatePath rest).1)
            ((mutatePath rest).2.map (· + 1)) := rfl
      rw [hstep, applyPatches_cons, ih]
    · have hmut : mutatePath (b :: rest) =
          (b :: (mutatePath rest).1, (mutatePath rest).2.map (· + 1)) := by
        simp [mutatePath, hb]
      rw [hmut]
      rw [applyPatches_cons, ih]

/-- Helper: restoring after the mutation loop recovers the original
index entry paths on both the completing and the early-exit runs. -/
theorem restoreState_mutateAll (paths : List Path) :
    restoreState (mutateAll paths) = paths := by
  induction paths with
  | nil => rfl
  | cons p rest ih =>
    simp only [mutateAll]
    by_cases hp : hasByte 1 p = true
    · simp [restoreState, hp]
    · simp only [Bool.not_eq_true] at hp
      simp only [hp, Bool.false_eq_true, if_false]
      show restoreState (mutatePath p :: (mutateAll rest).1,
        (mutateAll rest).2.1, (mutateAll rest).2.2) = p :: rest
      simp only [restoreState, List.map_cons, List.cons_append]
      rw [applyPatches_mutatePath]
      exact congrArg (p :: ·) ih

/-- Helper: the mutation loop exits early exactly when some index entry
path contains the reserved sentinel byte. -/
theorem mutateAll_flag (paths : List Path) :
    (mutateAll paths).2.2 = false ↔ ∃ p ∈ paths, hasByte 1 p = true := by
  induction paths with
  | nil => simp [mutateAll]
  | cons p rest ih =>
    by_cases hp : hasByte 1 p = true
    · simp only [mutateAll, hp, if_true]
      simp only [true_iff]
      exact ⟨p, List.mem_cons_self p rest, hp⟩
    · simp only [Bool.not_eq_true] at hp
      simp only [mutateAll, hp, Bool.false_eq_true, if_false]
      rw [ih]
      constructor
      · rintro ⟨q, hq, hq1⟩
        exact ⟨q, List.mem_cons_of_mem _ hq, hq1⟩
      · rintro ⟨q, hq, hq1⟩
        rcases List.mem_cons.mp hq with h | h
        · subst h
          rw [hq1] at hp
          cases hp
        · exact ⟨q, h, hq1⟩

/-- C6: on every exit path of the shard-table builder, the index entry
paths are left byte for byte identical to their values on entry: every
slash byte temporarily mutated to the sentinel byte is restored. -/
theorem c6_index_paths_restored (paths : List Path) (poolSize : Nat) :
    (updateSplits paths poolSize).1 = paths := by
  simp only [updateSplits]
  split
  · rfl
  · split
    · exact restoreState_mutateAll paths
    · exact restoreState_mutateAll paths

/-- C7: when any index entry path contains the reserved sentinel byte 1,
the shard-table builder produces the trivial one-shard table and raises
no error. -/
theorem c7_sentinel_byte_fallback (paths : List Path) (poolSize : Nat)
    (h : ∃ p ∈ paths, hasByte 1 p = true) :
    (updateSplits paths poolSize).2 = [[], []] := by
  simp only [updateSplits]
  split
  · rfl
  · rw [if_pos ((mutateAll_flag paths).mpr h)]

/-- Witness for C7 at a concrete input: a path containing byte 1. -/
theorem c7_witness :
    (∃ p ∈ [[97, 1, 98]], hasByte 1 p = true) ∧
    (updateSplits [[97, 1, 98]] 4).2 = [[], []] :=
  ⟨by decide, c7_sentinel_byte_fallback [[97, 1, 98]] 4 (by decide)⟩

/-- Helper: one boundary-loop iteration grows the accumulator by at most
one element. -/
theorem pushBoundary_length_le (rents : List Path) (n shards : Nat)
    (acc : List Path) (i : Nat) :
    (pushBoundary rents n shards acc i).length ≤ acc.length + 1 := by
  unfold pushBoundary
  split
  · omega
  · split
    · simp
    · omega

/-- Helper: folding the boundary loop grows the accumulator by at most
the number of iterations. -/
theorem foldl_pushBoundary_length (rents : List Path) (n shards : Nat) :
    ∀ (l : List Nat) (acc : List Path),
      (l.foldl (pushBoundary rents n shards) acc).length ≤
        acc.length + l.length := by
  intro l
  induction l with
  | nil => simp
  | cons i l ih =>
    intro acc
    have h1 := ih (pushBoundary rents n shards acc i)
    have h2 := pushBoundary_length_le rents n shards acc i
    simp only [List.foldl_cons, List.length_cons]
    omega

/-- C3 counterexample: for an index of 1000 entries and a pool of 8
threads, the shard count computed by the code is
min(1000 / 512 + 1, 8) = 2, not the claimed min(ceil(1000/512)+1, 8)
= 3; the two formulas differ whenever 512 does not divide N. -/
theorem c3_counterexample :
    ¬ (numShards (List.replicate 1000 ([120] : Path)).length 8 =
        min (((List.replicate 1000 ([120] : Path)).length + 511) / 512 + 1)
          8) := by
  simp only [List.length_replicate]
  decide

/-- C3 amended: if N is at most 512 or the pool has fewer than 2
threads the builder emits the trivial table; otherwise it targets
S = min(floor(N/512) + 1, pool size) shards, the formula the code
computes (which equals the claimed ceiling formula only when 512
divides N or the pool is the minimum), and the final table contains at
most S + 1 boundary strings. -/
theorem c3_shard_table_size (paths : List Path) (poolSize : Nat) :
    (paths.length ≤ 512 ∨ poolSize < 2 →
      (updateSplits paths poolSize).2 = [[], []]) ∧
    numShards paths.length poolSize =
      min (paths.length / 512 + 1) poolSize ∧
    (512 < paths.length → 2 ≤ poolSize →
      (updateSplits paths poolSize).2.length ≤
        numShards paths.length poolSize + 1) := by
  refine ⟨?_, rfl, ?_⟩
  · intro h
    simp only [updateSplits, kEntriesPerShard]
    rw [if_pos h]
  · intro hn hp
    have hcond : ¬ (paths.length ≤ kEntriesPerShard ∨ poolSize < 2) := by
      simp only [kEntriesPerShard]
      omega
    have hshards : 2 ≤ numShards paths.length poolSize := by
      simp only [numShards, kEntriesPerShard]
      have : 1 ≤ paths.length / 512 := by
        omega
      omega
    simp only [updateSplits]
    rw [if_neg hcond]
    split
    · simp only [List.length_cons, List.length_nil]
      omega
    · simp only [List.length_append, List.length_reverse,
        List.length_cons, List.length_nil]
      have := foldl_pushBoundary_length
        ((lastLoop ((sortEntries ((mutateAll paths).1.map Prod.fst).enum).zip
            ((mutateAll paths).1.map Prod.fst).enum) (paths.length, []) []).map
          (fun e => (restoreState (mutateAll paths)).getD e.1 []))
        paths.length (numShards paths.length poolSize)
        (List.range (numShards paths.length poolSize - 1)) [[]]
      simp only [List.length_range, List.length_cons, List.length_nil] at this
      omega

/-- Witness for C3 at concrete inputs: a one-entry index hits the
trivial branch, a 513-entry index the bound. -/
theorem c3_witness :
    (updateSplits [[97]] 4).2 = [[], []] ∧
    (updateSplits (List.replicate 513 ([120] : Path)) 4).2.length ≤
      numShards (List.replicate 513 ([120] : Path)).length 4 + 1 :=
  ⟨(c3_shard_table_size [[97]] 4).1 (Or.inl (by decide)),
   (c3_shard_table_size (List.replicate 513 ([120] : Path)) 4).2.2
     (by rw [List.length_replicate]; omega) (by decide)⟩

/-- Helper: one boundary-loop iteration preserves the accumulator
invariant: nonempty, the bottom element is the opening sentinel, and
strictly decreasing from head to bottom. -/
theorem pushBoundary_inv (rents : List Path) (n shards : Nat)
    (acc : List Path) (i : Nat)
    (h : acc ≠ [] ∧ acc.getLast? = some [] ∧
      List.Chain' (fun a b => strlt b a = true) acc) :
    pushBoundary rents n shards acc i ≠ [] ∧
    (pushBoundary rents n shards acc i).getLast? = some [] ∧
    List.Chain' (fun a b => strlt b a = true)
      (pushBoundary rents n shards acc i) := by
  obtain ⟨h1, h2, h3⟩ := h
  unfold pushBoundary
  split
  · exact ⟨h1, h2, h3⟩
  · split
    · rcases acc with _ | ⟨b, l⟩
      · cases h1 rfl
      · rename_i d hlt
        refine ⟨by simp, ?_, ?_⟩
        · rw [List.getLast?_cons_cons]
          exact h2
        · rw [List.chain'_cons]
          refine ⟨?_, h3⟩
          simpa using hlt
    · exact ⟨h1, h2, h3⟩

/-- Helper: the boundary-loop fold preserves the accumulator
invariant. -/
theorem foldl_pushBoundary_inv (rents : List Path) (n shards : Nat) :
    ∀ (l : List Nat) (acc : List Path),
      (acc ≠ [] ∧ acc.getLast? = some [] ∧
        List.Chain' (fun a b => strlt b a = true) acc) →
      (l.foldl (pushBoundary rents n shards) acc ≠ [] ∧
        (l.foldl (pushBoundary rents n shards) acc).getLast? = some [] ∧
        List.Chain' (fun a b => strlt b a = true)
          (l.foldl (pushBoundary rents n shards) acc)) := by
  intro l
  induction l with
  | nil => intro acc h; exact h
  | cons i l ih =>
    intro acc h
    simp only [List.foldl_cons]
    exact ih _ (pushBoundary_inv rents n shards acc i h)

/-- Helper: every shard table produced by the builder opens and closes
with the empty sentinel and its boundaries short of the closing
sentinel are strictly ascending. -/
theorem updateSplits_table_inv (paths : List Path) (poolSize : Nat) :
    (updateSplits paths poolSize).2.head? = some [] ∧
    (updateSplits paths poolSize).2.getLast? = some [] ∧
    List.Chain' (fun a b => strlt a b = true)
      (updateSplits paths poolSize).2.dropLast := by
  simp only [updateSplits]
  split
  · exact ⟨rfl, rfl, List.chain'_singleton []⟩
  · split
    · exact ⟨rfl, rfl, List.chain'_singleton []⟩
    · have hinv := foldl_pushBoundary_inv
        ((lastLoop ((sortEntries ((mutateAll paths).1.map Prod.fst).enum).zip
            ((mutateAll paths).1.map Prod.fst).enum) (paths.length, []) []).map
          (fun e => (restoreState (mutateAll paths)).getD e.1 []))
        paths.length (numShards paths.length poolSize)
        (List.range (numShards paths.length poolSize - 1)) [[]]
        ⟨by simp, rfl, List.chain'_singleton []⟩
      obtain ⟨hne, hlast, hchain⟩ := hinv
      refine ⟨?_, ?_, ?_⟩
      · rw [List.head?_append_of_ne_nil _ (by simpa using hne)]
        rw [List.head?_reverse]
        exact hlast
      · exact List.getLast?_concat _
      · rw [List.dropLast_concat, List.chain'_reverse]
        exact hchain

/-- Helper: the inflight counter never goes negative: it starts
non-negative, increments freely, and decrements only behind the CHECK
that it is positive. -/
theorem runInflight_nonneg :
    ∀ (ops : List InflightOp) (v w : Int), 0 ≤ v →
      runInflight v ops = some w → 0 ≤ w := by
  intro ops
  induction ops with
  | nil =>
    intro v w hv h
    simp only [runInflight, Option.some.injEq] at h
    omega
  | cons op ops ih =>
    intro v w hv h
    cases op with
    | inc =>
      exact ih (v + 1) w (by omega) h
    | dec =>
      simp only [runInflight] at h
      split at h
      · exact ih (v - 1) w (by omega) h
      · cases h

/-- C4 counterexample: the trivial shard table produced for a one-entry
index is the two-element list of empty sentinels, whose adjacent pair
does not satisfy strict lexicographic ascent, refuting the claim that
every adjacent pair of the table ascends strictly. -/
theorem c4_counterexample :
    ¬ ((updateSplits [[97]] 4).2.head? = some [] ∧
       (updateSplits [[97]] 4).2.getLast? = some [] ∧
       List.Chain' (fun a b => strlt a b = true)
         (updateSplits [[97]] 4).2) := by
  intro h
  have h3 := h.2.2
  rw [show (updateSplits [[97]] 4).2 = [[], []] by decide] at h3
  rw [List.chain'_cons] at h3
  exact absurd h3.1 (by decide)

/-- C4 amended: after every status query the inflight counter is
non-negative, and the shard table opens and closes with the empty
sentinel with all boundaries before the closing sentinel strictly
ascending (the closing sentinel stands for plus infinity and does not
ascend lexicographically). -/
theorem c4_invariants (paths : List Path) (poolSize : Nat)
    (ops : List InflightOp) (v : Int)
    (hrun : runInflight 0 ops = some v) :
    0 ≤ v ∧
    (updateSplits paths poolSize).2.head? = some [] ∧
    (updateSplits paths poolSize).2.getLast? = some [] ∧
    List.Chain' (fun a b => strlt a b = true)
      (updateSplits paths poolSize).2.dropLast := by
  refine ⟨runInflight_nonneg ops 0 v (by omega) hrun, ?_, ?_, ?_⟩
  · exact (updateSplits_table_inv paths poolSize).1
  · exact (updateSplits_table_inv paths poolSize).2.1
  · exact (updateSplits_table_inv paths poolSize).2.2

/-- Witness for C4 at a concrete input: a query that scheduled one task
that then finished. -/
theorem c4_witness :
    0 ≤ (0 : Int) ∧
    (updateSplits [[97]] 4).2.head? = some [] ∧
    (updateSplits [[97]] 4).2.getLast? = some [] ∧
    List.Chain' (fun a b => strlt a b = true)
      (updateSplits [[97]] 4).2.dropLast :=
  c4_invariants [[97]] 4 [.inc, .dec] 0 (by decide)

/-! ## Theorems: references and tags -/

/-- C9 divergence: on a tag reference that is symbolic to a branch
pointing directly at the target object id, the code returns the empty
string, because its resolution loop looks up the name of the current
reference rather than its symbolic target and therefore never advances,
while the specification resolution (following the symbolic target for
up to ten hops) finds the tag and returns its short name. -/
theorem c9_symbolic_tag_divergence :
    getTagName symTagDb ["refs/tags/v1"] (some 42) = "" ∧
    getTagNameSpec symTagDb ["refs/tags/v1"] (some 42) = "v1" :=
  ⟨rfl, rfl⟩

/-- C10: Head returns null only when the HEAD reference lookup reports
not-found; when HEAD exists but git_reference_resolve fails (the
unborn-branch case) Head returns the unresolved symbolic HEAD reference
itself rather than null. -/
theorem c10_head_null_iff_not_found (lk : LookupOutcome)
    (resolve : RefVal → Option RefVal) (r : RefVal) :
    (Head lk resolve = .ok none → lk = .notFound) ∧
    (lk = .found r → resolve r = none → Head lk resolve = .ok (some r)) := by
  constructor
  · intro h
    cases lk with
    | notFound => rfl
    | failed => cases h
    | found r2 =>
      rcases hr : resolve r2 with _ | d <;>
        simp only [Head, hr] at h <;> simp at h
  · intro hlk hres
    subst hlk
    simp only [Head, hres]

/-- Witness for C10 at concrete inputs: a missing HEAD and an unborn
branch whose resolution fails. -/
theorem c10_witness :
    LookupOutcome.notFound = LookupOutcome.notFound ∧
    Head (.found (RefVal.symbolic "refs/heads/main")) (fun _ => none) =
      .ok (some (RefVal.symbolic "refs/heads/main")) :=
  ⟨(c10_head_null_iff_not_found .notFound (fun _ => none)
      (RefVal.symbolic "refs/heads/main")).1 rfl,
   (c10_head_null_iff_not_found (.found (RefVal.symbolic "refs/heads/main"))
      (fun _ => none) (RefVal.symbolic "refs/heads/main")).2 rfl rfl⟩

end Gitstatus
